import Mathlib

/-
  Verification development for the VPLS link codec of iproute2
  (ip/iplink_vpls.c): the command-line → netlink-attribute encoder
  `vpls_parse_opt` and the attribute → text decoder `vpls_print_opt`.

  Machine integers are modelled as `Nat`; 32-bit attribute payloads are
  byte lists in memory (host, little-endian) order; the IPv4 next hop is
  kept in network (memory) byte order as the C keeps the raw `__u32`
  filled by `inet_pton`, so the zero test and the dotted-quad rendering
  are byte-order independent.  Helper routines of the repository that
  live outside ip/iplink_vpls.c (`matches`, `get_u32`, `get_u8`,
  `get_unsigned`, `inet_get_addr`) and the libc collaborators
  (`if_nametoindex`, `if_indextoname`, `format_host`) are modelled from
  the spec, as marked on each definition.
-/

namespace Vpls

/-- Attribute tags of the VPLS schema (IFLA_VPLS_*). -/
inductive Tag where
  | ID
  | VLANID
  | OIF
  | TTL
  | IN_LABEL
  | OUT_LABEL
  | NH
  | NH6
deriving DecidableEq, Repr

/-- An emitted attribute: tag together with its raw payload bytes. -/
abbrev Attr := Tag × List Nat

/-- Little-endian (host order) 4-byte encoding used by `addattr32`. -/
def u32le (n : Nat) : List Nat :=
  [n % 256, n / 256 % 256, n / 65536 % 256, n / 16777216 % 256]

/-- Reading a 4-byte payload back as a 32-bit value (`rta_getattr_u32`). -/
def getU32le (bs : List Nat) : Nat :=
  bs.getD 0 0 + bs.getD 1 0 * 256 + bs.getD 2 0 * 65536 + bs.getD 3 0 * 16777216

/-- Reading a 1-byte payload (`rta_getattr_u8`). -/
def getU8 (bs : List Nat) : Nat := bs.getD 0 0

/-- Splitting a character list on a separator character (used by the
address parsers; structurally recursive so that concrete inputs evaluate
inside the kernel). -/
def splitOnChar (c : Char) : List Char → List (List Char)
  | [] => [[]]
  | x :: xs =>
    match splitOnChar c xs with
    | [] => [[]]
    | g :: gs => if x = c then [] :: g :: gs else (x :: g) :: gs

/-- Modelled from the spec: decimal numeric literal parsing underlying the
missing utils.c readers (`get_u32`, `get_u8`, `get_unsigned`); the spec
speaks of "valid decimal string" tokens. -/
def parseDecChars (l : List Char) : Option Nat :=
  if l = [] then none
  else if l.all (fun c => c.isDigit) then
    some (l.foldl (fun a c => a * 10 + (c.toNat - 48)) 0)
  else none

/-- Decimal parsing of a whole token. -/
def parseDec (s : String) : Option Nat := parseDecChars s.data

/-- Modelled from the spec: utils.c `get_u32` — "parse as unsigned 32-bit",
failing on non-numeric or out-of-32-bit-range tokens. -/
def get_u32 (s : String) : Option Nat :=
  match parseDec s with
  | some n => if n < 4294967296 then some n else none
  | none => none

/-- Modelled from the spec: utils.c `get_u8` — "parse as unsigned 8-bit". -/
def get_u8 (s : String) : Option Nat :=
  match parseDec s with
  | some n => if n < 256 then some n else none
  | none => none

/-- Modelled from the spec: utils.c `get_unsigned` — unsigned int parsing,
same 32-bit range as `get_u32` on the target platform. -/
def get_unsigned (s : String) : Option Nat :=
  match parseDec s with
  | some n => if n < 4294967296 then some n else none
  | none => none

/-- Modelled from the spec: one dotted-quad component for IPv4 parsing
(decimal, at most 255). -/
def parseOctet (l : List Char) : Option Nat :=
  match parseDecChars l with
  | some n => if n ≤ 255 then some n else none
  | none => none

/-- Modelled from the spec: textual IPv4 parsing (`inet_pton(AF_INET)`):
exactly four dotted decimal octets; result is the four address bytes in
network (memory) order. -/
def parseIPv4 (s : String) : Option (List Nat) :=
  match (splitOnChar '.' s.data).mapM parseOctet with
  | some l => if l.length = 4 then some l else none
  | none => none

/-- Hexadecimal digit test for IPv6 group parsing. -/
def isHexDigitChar (c : Char) : Bool :=
  c.isDigit || (97 ≤ c.toNat && c.toNat ≤ 102) || (65 ≤ c.toNat && c.toNat ≤ 70)

/-- Value of a hexadecimal digit. -/
def hexVal (c : Char) : Nat :=
  if c.isDigit then c.toNat - 48
  else if 97 ≤ c.toNat then c.toNat - 87
  else c.toNat - 55

/-- Modelled from the spec: one 16-bit hexadecimal group of an IPv6
address literal (one to four hex digits). -/
def parseHexGroup (l : List Char) : Option Nat :=
  if l ≠ [] ∧ l.length ≤ 4 ∧ l.all isHexDigitChar then
    some (l.foldl (fun a c => a * 16 + hexVal c) 0)
  else none

/-- Groups of a colon-separated list that may be empty (one side of a
"::" compression). -/
def groupsOpt (l : List Char) : Option (List Nat) :=
  if l = [] then some [] else (splitOnChar ':' l).mapM parseHexGroup

/-- Groups of a full (uncompressed) colon-separated list. -/
def groupsFull (l : List Char) : Option (List Nat) :=
  (splitOnChar ':' l).mapM parseHexGroup

/-- 16-bit words to bytes, big-endian per word, as an in6_addr lays out. -/
def wordsToBytes (ws : List Nat) : List Nat :=
  ws.foldr (fun w acc => w / 256 % 256 :: w % 256 :: acc) []

/-- Splitting a character list at the first "::" occurrence, if any. -/
def splitTwoColon : List Char → Option (List Char × List Char)
  | [] => none
  | x :: rest =>
    match rest with
    | [] => none
    | y :: xs =>
      if x = ':' ∧ y = ':' then some ([], xs)
      else
        match splitTwoColon rest with
        | some (l, r) => some (x :: l, r)
        | none => none

/-- Modelled from the spec: textual IPv6 parsing (`inet_pton(AF_INET6)`):
eight 16-bit hexadecimal groups with at most one "::" compression;
result is the 16 address bytes. -/
def parseIPv6 (s : String) : Option (List Nat) :=
  match splitTwoColon s.data with
  | none =>
    match groupsFull s.data with
    | some ws => if ws.length = 8 then some (wordsToBytes ws) else none
    | none => none
  | some (l, r) =>
    match groupsOpt l, groupsOpt r with
    | some wl, some wr =>
      if wl.length + wr.length ≤ 7 then
        some (wordsToBytes (wl ++ List.replicate (8 - wl.length - wr.length) 0 ++ wr))
      else none
    | _, _ => none

/-- A parsed next-hop address, carrying the raw bytes per family. -/
inductive IpAddr where
  | v4 (bs : List Nat)
  | v6 (bs : List Nat)
deriving DecidableEq, Repr

/-- Modelled from the spec: utils.c `inet_get_addr` — "parse ADDR as IPv4
first; if that fails, parse as IPv6"; failure when neither parses. -/
def inet_get_addr (s : String) : Option IpAddr :=
  match parseIPv4 s with
  | some b => some (.v4 b)
  | none =>
    match parseIPv6 s with
    | some b => some (.v6 b)
    | none => none

/-- Encoder-local state of `vpls_parse_opt`: the two deferred next-hop
slots (`via_addr`, `via_addr6`, kept as raw bytes in memory order) and
the attributes appended to the netlink message so far. -/
structure PState where
  via4 : List Nat
  via6 : List Nat
  attrs : List Attr
deriving DecidableEq, Repr

/-- Initial encoder state: `via_addr = 0`, `via_addr6 = IN6ADDR_ANY_INIT`,
no attributes appended yet. -/
def initState : PState := ⟨[0, 0, 0, 0], List.replicate 16 0, []⟩

/-- How `vpls_parse_opt` aborts.  `invarg` models utils.c `invarg`, which
prints the reason and offending token and exits the process with -1;
`missarg` models `NEXT_ARG` running out of tokens (incomplete command,
also a process exit); `helpReq` and `unknown` are the two `return -1`
sites of the C function.  On any abort the partially filled netlink
message is discarded by the caller. -/
inductive PErr where
  | invarg (msg tok : String)
  | missarg
  | helpReq
  | unknown (tok : String)
deriving DecidableEq, Repr

/-- Decidable equality on `Except` results, so that concrete encoder runs
can be settled by `decide`. -/
instance {ε α : Type} [DecidableEq ε] [DecidableEq α] : DecidableEq (Except ε α) := fun a b =>
  match a, b with
  | .ok x, .ok y =>
    if h : x = y then .isTrue (by rw [h]) else .isFalse (by intro hc; cases hc; exact h rfl)
  | .error x, .error y =>
    if h : x = y then .isTrue (by rw [h]) else .isFalse (by intro hc; cases hc; exact h rfl)
  | .ok _, .error _ => .isFalse (by intro hc; cases hc)
  | .error _, .ok _ => .isFalse (by intro hc; cases hc)

/-- Bitmask of the bits above bit 19 inside a 32-bit value: the C tests
`uval & ~LABEL_MAX_MASK` with `LABEL_MAX_MASK = 0xFFFFF` on a `__u32`,
and `~0xFFFFF` as a 32-bit value is 0xFFF00000 = 4293918720. -/
def labelHighMask : Nat := 4293918720

/-- The token-consuming loop of `vpls_parse_opt` (the C `while (argc > 0)`
loop), one keyword (plus its value, except for `help`/unknown) per step.
Keyword dispatch models utils.c `matches` by exact equality, following
the spec's list of recognized keywords, in the source's test order. -/
def vpls_parse_loop (ifname : String → Nat) : List String → PState → Except PErr PState
  | [], st => .ok st
  | [kw], _ =>
    if kw = "id" then .error .missarg
    else if kw = "via" then .error .missarg
    else if kw = "vlan" then .error .missarg
    else if kw = "dev" then .error .missarg
    else if kw = "ttl" ∨ kw = "hoplimit" then .error .missarg
    else if kw = "input" then .error .missarg
    else if kw = "output" then .error .missarg
    else if kw = "help" then .error .helpReq
    else .error (.unknown kw)
  | kw :: v :: rest, st =>
    if kw = "id" then
      match get_u32 v with
      | none => .error (.invarg "invalid id" v)
      | some n =>
        vpls_parse_loop ifname rest { st with attrs := st.attrs ++ [(Tag.ID, u32le n)] }
    else if kw = "via" then
      match inet_get_addr v with
      | none => .error (.invarg "invalid address" v)
      | some (.v4 b) => vpls_parse_loop ifname rest { st with via4 := b }
      | some (.v6 b) => vpls_parse_loop ifname rest { st with via6 := b }
    else if kw = "vlan" then
      match get_u8 v with
      | none => .error (.invarg "invalid vlan id" v)
      | some n =>
        vpls_parse_loop ifname rest { st with attrs := st.attrs ++ [(Tag.VLANID, [n])] }
    else if kw = "dev" then
      if ifname v = 0 then .error (.invarg "invalid device" v)
      else
        vpls_parse_loop ifname rest { st with attrs := st.attrs ++ [(Tag.OIF, u32le (ifname v))] }
    else if kw = "ttl" ∨ kw = "hoplimit" then
      if v = "inherit" then vpls_parse_loop ifname rest st
      else
        match get_unsigned v with
        | none => .error (.invarg "invalid TTL" v)
        | some n =>
          if n > 255 then .error (.invarg "TTL must be <= 255" v)
          else vpls_parse_loop ifname rest { st with attrs := st.attrs ++ [(Tag.TTL, [n])] }
    else if kw = "input" then
      match get_u32 v with
      | none => .error (.invarg "invalid input label" v)
      | some n =>
        if n &&& labelHighMask ≠ 0 then .error (.invarg "invalid input label" v)
        else vpls_parse_loop ifname rest { st with attrs := st.attrs ++ [(Tag.IN_LABEL, u32le n)] }
    else if kw = "output" then
      match get_u32 v with
      | none => .error (.invarg "invalid output label" v)
      | some n =>
        if n &&& labelHighMask ≠ 0 then .error (.invarg "invalid output label" v)
        else vpls_parse_loop ifname rest { st with attrs := st.attrs ++ [(Tag.OUT_LABEL, u32le n)] }
    else if kw = "help" then .error .helpReq
    else .error (.unknown kw)

/-- End-of-parse next-hop emission of `vpls_parse_opt`: `if (via_addr)`
emit NH with the raw 4 bytes, `else if (!IN6_IS_ADDR_UNSPECIFIED(...))`
emit NH6 with the 16 bytes, else nothing. -/
def nhEmit (st : PState) : List Attr :=
  if st.via4.any (fun b => b ≠ 0) then [(Tag.NH, st.via4)]
  else if st.via6.any (fun b => b ≠ 0) then [(Tag.NH6, st.via6)]
  else []

/-- The encoder `vpls_parse_opt`: run the token loop from the initial
state, then perform the deferred next-hop emission and return 0 (here:
the final attribute list). -/
def vpls_parse_opt (ifname : String → Nat) (toks : List String) : Except PErr (List Attr) :=
  match vpls_parse_loop ifname toks initState with
  | .ok st => .ok (st.attrs ++ nhEmit st)
  | .error e => .error e

/-- The integer outcome the caller of `vpls_parse_opt` observes: 0 on
success; -1 for the `help` and unknown-keyword returns, and likewise -1
for the `invarg`/incomplete-command process exits. -/
def retcode (r : Except PErr (List Attr)) : Int :=
  match r with
  | .ok _ => 0
  | .error _ => -1

/-- The usage text of `print_explain`. -/
def usageText : String :=
  "Usage: ... vpls id ID [ output LABEL ] [ input LABEL ]\n" ++
  "                 [ ttl TTL ] [ via ADDR ][ dev PHYS_DEV ]\n" ++
  "                 [ vlan ID ]\n" ++
  "\n" ++
  "Where: ID    := 0-16777215\n" ++
  "       TTL   := \x7b 1..255 | inherit \x7d\n" ++
  "       LABEL := 0-1048575\n"

/-- Text written to the error stream for each outcome of the encoder
(`print_explain` on help and unknown keyword; utils.c diagnostics,
modelled from the spec, for `invarg` and incomplete command). -/
def stderrOf (r : Except PErr (List Attr)) : String :=
  match r with
  | .ok _ => ""
  | .error .helpReq => usageText
  | .error (.unknown tok) => "vpls: unknown command \"" ++ tok ++ "\"?\n" ++ usageText
  | .error (.invarg msg tok) => "Error: argument \"" ++ tok ++ "\" is wrong: " ++ msg ++ "\n"
  | .error .missarg => "Command line is not complete. Try option \"help\"\n"

/-- Number of attributes carrying a given tag in a list. -/
def countTag (t : Tag) (attrs : List Attr) : Nat :=
  (attrs.filter (fun a => decide (a.1 = t))).length

/-- The decoder's view of a received message: the `tb[]` table mapping
each tag to its raw payload when present (`parse_rtattr` keeps the last
occurrence of a duplicated tag). -/
def tbOf (attrs : List Attr) (t : Tag) : Option (List Nat) :=
  (attrs.reverse.find? (fun a => decide (a.1 = t))).map (fun a => a.2)

/-- First 16 bytes of an NH6 payload, as the decoder's `memcpy` of a
`struct in6_addr` reads them (missing bytes read as zero). -/
def read16 (bs : List Nat) : List Nat := (List.range 16).map (fun i => bs.getD i 0)

/-- IN6_IS_ADDR_UNSPECIFIED: all sixteen bytes are zero. -/
def isUnspec (bs : List Nat) : Bool := bs.all (fun b => b = 0)

/-- Modelled from the spec: `format_host(AF_INET, ...)` numeric rendering
of the four address bytes as a dotted quad. -/
def fmtIPv4 (bs : List Nat) : String :=
  Nat.repr (bs.getD 0 0) ++ "." ++ Nat.repr (bs.getD 1 0) ++ "." ++
  Nat.repr (bs.getD 2 0) ++ "." ++ Nat.repr (bs.getD 3 0)

/-- Lowercase hexadecimal rendering of a 16-bit group. -/
def fmtHex (n : Nat) : String := (Nat.toDigits 16 n).asString

/-- Modelled from the spec: `format_host(AF_INET6, ...)` rendering of the
sixteen address bytes as colon-separated 16-bit hexadecimal groups. -/
def fmtIPv6 (bs : List Nat) : String :=
  String.intercalate ":"
    (((List.range 8).map (fun i => bs.getD (2 * i) 0 * 256 + bs.getD (2 * i + 1) 0)).map fmtHex)

/-- IN_LABEL block of `vpls_print_opt`: print "label in N " when the
attribute is present and its value non-zero. -/
def inLabelPart (tb : Tag → Option (List Nat)) : String :=
  match tb Tag.IN_LABEL with
  | some p => if getU32le p ≠ 0 then "label in " ++ Nat.repr (getU32le p) ++ " " else ""
  | none => ""

/-- OUT_LABEL block of `vpls_print_opt`. -/
def outLabelPart (tb : Tag → Option (List Nat)) : String :=
  match tb Tag.OUT_LABEL with
  | some p => if getU32le p ≠ 0 then "out " ++ Nat.repr (getU32le p) ++ " " else ""
  | none => ""

/-- VLAN_ID block of `vpls_print_opt`. -/
def vlanPart (tb : Tag → Option (List Nat)) : String :=
  match tb Tag.VLANID with
  | some p => if getU8 p ≠ 0 then "vlan " ++ Nat.repr (getU8 p) ++ " " else ""
  | none => ""

/-- Next-hop block of `vpls_print_opt`: `if (tb[NH])` print the v4 form
when its value is non-zero, `else if (tb[NH6])` print the v6 form when
the address is not unspecified. -/
def nhPart (tb : Tag → Option (List Nat)) : String :=
  match tb Tag.NH with
  | some p => if getU32le p ≠ 0 then "via inet " ++ fmtIPv4 p ++ " " else ""
  | none =>
    match tb Tag.NH6 with
    | some p =>
      if isUnspec (read16 p) = false then "via inet6 " ++ fmtIPv6 (read16 p) ++ " " else ""
    | none => ""

/-- OIF block of `vpls_print_opt`: always printed when the attribute is
present, as the resolved name (`if_indextoname`, an external collaborator
passed here as a function) or the numeric index. -/
def oifPart (ifname : Nat → Option String) (tb : Tag → Option (List Nat)) : String :=
  match tb Tag.OIF with
  | some p =>
    match ifname (getU32le p) with
    | some nm => "dev " ++ nm ++ " "
    | none => "dev " ++ Nat.repr (getU32le p) ++ " "
  | none => ""

/-- TTL block of `vpls_print_opt`. -/
def ttlPart (tb : Tag → Option (List Nat)) : String :=
  match tb Tag.TTL with
  | some p => if getU8 p ≠ 0 then "ttl " ++ Nat.repr (getU8 p) ++ " " else ""
  | none => ""

/-- The decoder `vpls_print_opt`: abort with no output unless the ID
attribute is present with a payload of at least 4 bytes, then render the
fixed-order field blocks. -/
def vpls_print_opt (ifname : Nat → Option String) (tb : Tag → Option (List Nat)) : String :=
  match tb Tag.ID with
  | none => ""
  | some p =>
    if p.length < 4 then ""
    else
      "id " ++ Nat.repr (getU32le p) ++ " " ++
      inLabelPart tb ++ outLabelPart tb ++ vlanPart tb ++
      nhPart tb ++ oifPart ifname tb ++ ttlPart tb

/-- Concrete decoder input: a valid ID together with IN_LABEL, OUT_LABEL,
VLAN_ID and TTL all present with value zero, and an OIF of index 3. -/
def tb1 : Tag → Option (List Nat) := fun t =>
  match t with
  | Tag.ID => some (u32le 7)
  | Tag.IN_LABEL => some (u32le 0)
  | Tag.OUT_LABEL => some (u32le 0)
  | Tag.VLANID => some [0]
  | Tag.TTL => some [0]
  | Tag.OIF => some (u32le 3)
  | _ => none

/-- Concrete name resolution: index 3 resolves to "eth0". -/
def ifname1 : Nat → Option String := fun n => if n = 3 then some "eth0" else none

/-- Concrete non-unspecified IPv6 address bytes (fe80::1). -/
def addr16 : List Nat := [254, 128, 0, 0, 0, 0, 0, 0, 0, 0, 0, 0, 0, 0, 0, 1]

/-- Concrete decoder input: NH present with value 0 while NH6 is present
and not unspecified. -/
def tbNHzero : Tag → Option (List Nat) := fun t =>
  match t with
  | Tag.ID => some (u32le 1)
  | Tag.NH => some [0, 0, 0, 0]
  | Tag.NH6 => some addr16
  | _ => none

/-- Concrete decoder input: NH absent, NH6 present and not unspecified. -/
def tbV6 : Tag → Option (List Nat) := fun t =>
  match t with
  | Tag.ID => some (u32le 2)
  | Tag.NH6 => some addr16
  | _ => none

end Vpls

namespace Vpls

/-- Splitting an attribute list distributes over tag counting. -/
theorem countTag_append (t : Tag) (xs ys : List Attr) :
    countTag t (xs ++ ys) = countTag t xs + countTag t ys := by
  simp [countTag, List.filter_append]

/-- A list none of whose attributes carries tag `t` counts zero for `t`. -/
theorem countTag_eq_zero {t : Tag} {l : List Attr} (h : ∀ a ∈ l, a.1 ≠ t) :
    countTag t l = 0 := by
  unfold countTag
  rw [List.length_eq_zero, List.filter_eq_nil_iff]
  intro a ha
  simp [h a ha]

/-- A value accepted by `get_u32` fits in 32 bits. -/
theorem get_u32_lt {s : String} {L : Nat} (h : get_u32 s = some L) : L < 4294967296 := by
  unfold get_u32 at h
  cases hp : parseDec s with
  | none => rw [hp] at h; simp at h
  | some m =>
    rw [hp] at h
    have h2 : (if m < 4294967296 then (some m : Option Nat) else none) = some L := h
    split at h2
    · cases h2; assumption
    · cases h2

/-- Reading back a 4-byte encoding recovers any 32-bit value. -/
theorem getU32le_u32le {L : Nat} (h : L < 4294967296) : getU32le (u32le L) = L := by
  simp [u32le, getU32le, List.getD]
  omega

/-- For a 32-bit value, having no bit above bit 19 set is the same as
being at most 1048575. -/
theorem land_mask_eq_zero_iff {L : Nat} (h32 : L < 4294967296) :
    L &&& labelHighMask = 0 ↔ L < 1048576 := by
  constructor
  · intro h0
    have hbits : ∀ i, i ≥ 20 → L.testBit i = false := by
      intro i hi
      by_cases h32i : i < 32
      · have hm : Nat.testBit labelHighMask i = true := by
          interval_cases i <;> decide
        have ht := congrArg (fun x => Nat.testBit x i) h0
        simp only [Nat.testBit_and, Nat.zero_testBit, hm, Bool.and_true] at ht
        exact ht
      · have hp : L < 2 ^ i :=
          lt_of_lt_of_le h32
            (le_trans (by norm_num : (4294967296 : Nat) ≤ 2 ^ 32)
              (Nat.pow_le_pow_right (by norm_num) (by omega)))
        exact Nat.testBit_lt_two_pow hp
    have hlt := Nat.lt_pow_two_of_testBit L hbits
    have : (2 : Nat) ^ 20 = 1048576 := by norm_num
    omega
  · intro hlt
    apply Nat.eq_of_testBit_eq
    intro i
    simp only [Nat.testBit_and, Nat.zero_testBit]
    by_cases hi : i < 20
    · have hm : Nat.testBit labelHighMask i = false := by
        interval_cases i <;> decide
      simp [hm]
    · have hp : L < 2 ^ i :=
        lt_of_lt_of_le hlt
          (le_trans (by norm_num : (1048576 : Nat) ≤ 2 ^ 20)
            (Nat.pow_le_pow_right (by norm_num) (by omega)))
      simp [Nat.testBit_lt_two_pow hp]

/-- Induction step of the loop invariant for a branch that appends one
attribute of tag `t` before recursing. -/
theorem step_attr_case {ifname : String → Nat} {n : Nat} {kw v : String} {rest : List String}
    (ih : ∀ toks, toks.length ≤ n → ∀ st st', vpls_parse_loop ifname toks st = .ok st' →
      ∃ l, st'.attrs = st.attrs ++ l ∧
        ∀ a ∈ l, a.1 ≠ Tag.NH ∧ a.1 ≠ Tag.NH6 ∧ (a.1 = Tag.ID → "id" ∈ toks))
    (hr : rest.length ≤ n) {st st' : PState} {t : Tag} {p : List Nat}
    (ht4 : t ≠ Tag.NH) (ht6 : t ≠ Tag.NH6) (hid : t = Tag.ID → kw = "id")
    (h : vpls_parse_loop ifname rest { st with attrs := st.attrs ++ [(t, p)] } = .ok st') :
    ∃ l, st'.attrs = st.attrs ++ l ∧
      ∀ a ∈ l, a.1 ≠ Tag.NH ∧ a.1 ≠ Tag.NH6 ∧ (a.1 = Tag.ID → "id" ∈ kw :: v :: rest) := by
  obtain ⟨l, hl, hp⟩ := ih rest hr _ st' h
  refine ⟨(t, p) :: l, by rw [hl]; simp, ?_⟩
  intro a ha
  rcases List.mem_cons.mp ha with rfl | ha'
  · exact ⟨ht4, ht6, fun hidt => by rw [hid hidt]; exact List.mem_cons_self _ _⟩
  · obtain ⟨p1, p2, p3⟩ := hp a ha'
    exact ⟨p1, p2, fun hx => List.mem_cons_of_mem _ (List.mem_cons_of_mem _ (p3 hx))⟩

/-- Induction step of the loop invariant for a branch that leaves the
attribute list unchanged before recursing (the `via` captures and
`ttl inherit`). -/
theorem step_skip_case {ifname : String → Nat} {n : Nat} {kw v : String} {rest : List String}
    (ih : ∀ toks, toks.length ≤ n → ∀ st st', vpls_parse_loop ifname toks st = .ok st' →
      ∃ l, st'.attrs = st.attrs ++ l ∧
        ∀ a ∈ l, a.1 ≠ Tag.NH ∧ a.1 ≠ Tag.NH6 ∧ (a.1 = Tag.ID → "id" ∈ toks))
    (hr : rest.length ≤ n) {st0 st st' : PState}
    (h : vpls_parse_loop ifname rest st0 = .ok st') (hattrs : st0.attrs = st.attrs) :
    ∃ l, st'.attrs = st.attrs ++ l ∧
      ∀ a ∈ l, a.1 ≠ Tag.NH ∧ a.1 ≠ Tag.NH6 ∧ (a.1 = Tag.ID → "id" ∈ kw :: v :: rest) := by
  obtain ⟨l, hl, hp⟩ := ih rest hr st0 st' h
  refine ⟨l, by rw [hl, hattrs], ?_⟩
  intro a ha
  obtain ⟨p1, p2, p3⟩ := hp a ha
  exact ⟨p1, p2, fun hx => List.mem_cons_of_mem _ (List.mem_cons_of_mem _ (p3 hx))⟩

/-- Loop invariant of `vpls_parse_loop`: on success, the loop only ever
appends attributes, none of them tagged NH or NH6, and an ID-tagged
attribute is appended only when an "id" token occurs in the input. -/
theorem loop_appends (ifname : String → Nat) :
    ∀ (n : Nat) (toks : List String), toks.length ≤ n → ∀ (st st' : PState),
      vpls_parse_loop ifname toks st = .ok st' →
      ∃ l, st'.attrs = st.attrs ++ l ∧
        ∀ a ∈ l, a.1 ≠ Tag.NH ∧ a.1 ≠ Tag.NH6 ∧ (a.1 = Tag.ID → "id" ∈ toks) := by
  intro n
  induction n with
  | zero =>
    intro toks hlen st st' h
    have htoks : toks = [] := List.eq_nil_of_length_eq_zero (Nat.le_zero.mp hlen)
    subst htoks
    simp only [vpls_parse_loop] at h
    cases h
    exact ⟨[], by simp, by simp⟩
  | succ n ih =>
    intro toks hlen st st' h
    rcases toks with _ | ⟨kw, _ | ⟨v, rest⟩⟩
    · simp only [vpls_parse_loop] at h
      cases h
      exact ⟨[], by simp, by simp⟩
    · exfalso
      simp only [vpls_parse_loop] at h
      repeat' split at h
      all_goals simp at h
    · have hr : rest.length ≤ n := by
        simp only [List.length_cons] at hlen; omega
      simp only [vpls_parse_loop] at h
      by_cases h1 : kw = "id"
      · rw [if_pos h1] at h
        split at h
        · simp at h
        · exact step_attr_case ih hr (by decide) (by decide) (fun _ => h1) h
      rw [if_neg h1] at h
      by_cases h2 : kw = "via"
      · rw [if_pos h2] at h
        split at h
        · simp at h
        · exact step_skip_case ih hr h rfl
        · exact step_skip_case ih hr h rfl
      rw [if_neg h2] at h
      by_cases h3 : kw = "vlan"
      · rw [if_pos h3] at h
        split at h
        · simp at h
        · exact step_attr_case ih hr (by decide) (by decide) (fun hx => by cases hx) h
      rw [if_neg h3] at h
      by_cases h4 : kw = "dev"
      · rw [if_pos h4] at h
        split at h
        · simp at h
        · exact step_attr_case ih hr (by decide) (by decide) (fun hx => by cases hx) h
      rw [if_neg h4] at h
      by_cases h5 : kw = "ttl" ∨ kw = "hoplimit"
      · rw [if_pos h5] at h
        by_cases hv : v = "inherit"
        · rw [if_pos hv] at h
          exact step_skip_case ih hr h rfl
        · rw [if_neg hv] at h
          split at h
          · simp at h
          · split at h
            · simp at h
            · exact step_attr_case ih hr (by decide) (by decide) (fun hx => by cases hx) h
      rw [if_neg h5] at h
      by_cases h6 : kw = "input"
      · rw [if_pos h6] at h
        split at h
        · simp at h
        · split at h
          · simp at h
          · exact step_attr_case ih hr (by decide) (by decide) (fun hx => by cases hx) h
      rw [if_neg h6] at h
      by_cases h7 : kw = "output"
      · rw [if_pos h7] at h
        split at h
        · simp at h
        · split at h
          · simp at h
          · exact step_attr_case ih hr (by decide) (by decide) (fun hx => by cases hx) h
      rw [if_neg h7] at h
      by_cases h8 : kw = "help"
      · rw [if_pos h8] at h; simp at h
      · rw [if_neg h8] at h; simp at h

/-- The `input`/`output` loop step on an in-range label appends exactly
that label attribute. -/
theorem loop_input_ok (ifname : String → Nat) (s : String) (L : Nat)
    (h : get_u32 s = some L) (hz : L &&& labelHighMask = 0) (st : PState) :
    vpls_parse_loop ifname ["input", s] st =
      .ok { st with attrs := st.attrs ++ [(Tag.IN_LABEL, u32le L)] } := by
  have hstep : vpls_parse_loop ifname ["input", s] st =
      (match get_u32 s with
       | none => Except.error (PErr.invarg "invalid input label" s)
       | some n =>
         if n &&& labelHighMask ≠ 0 then Except.error (PErr.invarg "invalid input label" s)
         else vpls_parse_loop ifname []
           { st with attrs := st.attrs ++ [(Tag.IN_LABEL, u32le n)] }) := rfl
  rw [hstep, h]
  simp [hz, vpls_parse_loop]

/-- The `input` loop step on a label with a high bit set fails. -/
theorem loop_input_err (ifname : String → Nat) (s : String) (L : Nat)
    (h : get_u32 s = some L) (hz : L &&& labelHighMask ≠ 0) (st : PState) :
    vpls_parse_loop ifname ["input", s] st = .error (.invarg "invalid input label" s) := by
  have hstep : vpls_parse_loop ifname ["input", s] st =
      (match get_u32 s with
       | none => Except.error (PErr.invarg "invalid input label" s)
       | some n =>
         if n &&& labelHighMask ≠ 0 then Except.error (PErr.invarg "invalid input label" s)
         else vpls_parse_loop ifname []
           { st with attrs := st.attrs ++ [(Tag.IN_LABEL, u32le n)] }) := rfl
  rw [hstep, h]
  simp [hz]

/-- The `output` loop step on an in-range label appends exactly that
label attribute. -/
theorem loop_output_ok (ifname : String → Nat) (s : String) (L : Nat)
    (h : get_u32 s = some L) (hz : L &&& labelHighMask = 0) (st : PState) :
    vpls_parse_loop ifname ["output", s] st =
      .ok { st with attrs := st.attrs ++ [(Tag.OUT_LABEL, u32le L)] } := by
  have hstep : vpls_parse_loop ifname ["output", s] st =
      (match get_u32 s with
       | none => Except.error (PErr.invarg "invalid output label" s)
       | some n =>
         if n &&& labelHighMask ≠ 0 then Except.error (PErr.invarg "invalid output label" s)
         else vpls_parse_loop ifname []
           { st with attrs := st.attrs ++ [(Tag.OUT_LABEL, u32le n)] }) := rfl
  rw [hstep, h]
  simp [hz, vpls_parse_loop]

/-- The `output` loop step on a label with a high bit set fails. -/
theorem loop_output_err (ifname : String → Nat) (s : String) (L : Nat)
    (h : get_u32 s = some L) (hz : L &&& labelHighMask ≠ 0) (st : PState) :
    vpls_parse_loop ifname ["output", s] st = .error (.invarg "invalid output label" s) := by
  have hstep : vpls_parse_loop ifname ["output", s] st =
      (match get_u32 s with
       | none => Except.error (PErr.invarg "invalid output label" s)
       | some n =>
         if n &&& labelHighMask ≠ 0 then Except.error (PErr.invarg "invalid output label" s)
         else vpls_parse_loop ifname []
           { st with attrs := st.attrs ++ [(Tag.OUT_LABEL, u32le n)] }) := rfl
  rw [hstep, h]
  simp [hz]

end Vpls

namespace Vpls

/-- Claim C1 (evaluation at the failing input): the encoder accepts
`id 16777216`, a value above the documented maximum 16777215, returning
success with exactly one ID attribute whose decoded value is 16777216 —
contradicting the usage text range "ID := 0-16777215" and the claim that
such values are rejected with "invalid id". -/
theorem id_out_of_range_accepted :
    vpls_parse_opt (fun _ => 0) ["id", "16777216"] = .ok [(Tag.ID, u32le 16777216)] ∧
    getU32le (u32le 16777216) = 16777216 ∧ 16777216 > 16777215 :=
  ⟨by decide, by decide, by decide⟩

/-- Claim C2: encoding `id 100 vlan 5 ttl 10 input 20 output 30 via
10.0.0.1` succeeds, and decoding the resulting attribute mapping produces
exactly `id 100 label in 20 out 30 vlan 5 via inet 10.0.0.1 ttl 10 `
(trailing space, fixed order, no `dev` field since OIF is unset). -/
theorem roundtrip_example :
    (vpls_parse_opt (fun _ => 0)
        ["id", "100", "vlan", "5", "ttl", "10", "input", "20", "output", "30",
         "via", "10.0.0.1"]).map
      (fun attrs => vpls_print_opt (fun _ => none) (tbOf attrs)) =
    .ok "id 100 label in 20 out 30 vlan 5 via inet 10.0.0.1 ttl 10 " := by decide

/-- Claim C3: on every successful encoding the token loop itself emits no
NH/NH6 attribute — the next hop is emitted only after all tokens are
consumed, as NH with the raw 4-byte address exactly when the captured v4
slot is non-zero, else as NH6 exactly when the captured v6 slot is not
unspecified — so the output holds at most one of NH/NH6, and in
particular `via 0.0.0.0` emits neither. -/
theorem nh_emission_exclusive (ifname : String → Nat) (toks : List String) (out : List Attr)
    (h : vpls_parse_opt ifname toks = .ok out) :
    (∃ st, vpls_parse_loop ifname toks initState = .ok st ∧
      out = st.attrs ++ nhEmit st ∧
      countTag Tag.NH st.attrs = 0 ∧ countTag Tag.NH6 st.attrs = 0 ∧
      nhEmit st = (if st.via4.any (fun b => b ≠ 0) then [(Tag.NH, st.via4)]
        else if st.via6.any (fun b => b ≠ 0) then [(Tag.NH6, st.via6)] else [])) ∧
    countTag Tag.NH out + countTag Tag.NH6 out ≤ 1 ∧
    (toks = ["via", "0.0.0.0"] → countTag Tag.NH out = 0 ∧ countTag Tag.NH6 out = 0) := by
  revert h
  unfold vpls_parse_opt
  cases hl : vpls_parse_loop ifname toks initState with
  | error e => intro h; simp at h
  | ok st =>
    intro h
    simp only [Except.ok.injEq] at h
    subst h
    obtain ⟨l, hst, hprop⟩ := loop_appends ifname toks.length toks le_rfl initState st hl
    have hstl : st.attrs = l := by simpa [initState] using hst
    have hNH : countTag Tag.NH st.attrs = 0 := by
      rw [hstl]; exact countTag_eq_zero (fun a ha => (hprop a ha).1)
    have hNH6 : countTag Tag.NH6 st.attrs = 0 := by
      rw [hstl]; exact countTag_eq_zero (fun a ha => (hprop a ha).2.1)
    have he : countTag Tag.NH (nhEmit st) + countTag Tag.NH6 (nhEmit st) ≤ 1 := by
      unfold nhEmit
      split
      · simp [countTag]
      · split
        · simp [countTag]
        · simp [countTag]
    refine ⟨⟨st, rfl, rfl, hNH, hNH6, rfl⟩, ?_, ?_⟩
    · rw [countTag_append, countTag_append, hNH, hNH6]
      omega
    · intro ht
      subst ht
      have hcal : vpls_parse_loop ifname ["via", "0.0.0.0"] initState =
          .ok (⟨[0, 0, 0, 0], List.replicate 16 0, []⟩ : PState) := rfl
      rw [hl] at hcal
      injection hcal with hc
      subst hc
      decide

/-- Claim C3 witness: the theorem applied to the concrete encoding of
`via 0.0.0.0`, whose output is the empty attribute list. -/
theorem nh_emission_exclusive_witness :
    (∃ st, vpls_parse_loop (fun _ => 0) ["via", "0.0.0.0"] initState = .ok st ∧
      ([] : List Attr) = st.attrs ++ nhEmit st ∧
      countTag Tag.NH st.attrs = 0 ∧ countTag Tag.NH6 st.attrs = 0 ∧
      nhEmit st = (if st.via4.any (fun b => b ≠ 0) then [(Tag.NH, st.via4)]
        else if st.via6.any (fun b => b ≠ 0) then [(Tag.NH6, st.via6)] else [])) ∧
    countTag Tag.NH [] + countTag Tag.NH6 [] ≤ 1 ∧
    ((["via", "0.0.0.0"] : List String) = ["via", "0.0.0.0"] →
      countTag Tag.NH ([] : List Attr) = 0 ∧ countTag Tag.NH6 ([] : List Attr) = 0) :=
  nh_emission_exclusive (fun _ => 0) ["via", "0.0.0.0"] [] (by decide)

/-- Claim C4: `ttl inherit` emits no TTL attribute; `ttl 64` emits
exactly one TTL attribute with value 64; `ttl 256` fails with the
distinct out-of-range message "TTL must be <= 255"; non-numeric
`ttl abc` fails with "invalid TTL"; and `hoplimit` behaves identically
to `ttl` (shown on the same inputs and as a general loop equality). -/
theorem ttl_encoding_cases :
    vpls_parse_opt (fun _ => 0) ["ttl", "inherit"] = .ok [] ∧
    vpls_parse_opt (fun _ => 0) ["ttl", "64"] = .ok [(Tag.TTL, [64])] ∧
    countTag Tag.TTL [(Tag.TTL, [64])] = 1 ∧ countTag Tag.TTL [] = 0 ∧
    vpls_parse_opt (fun _ => 0) ["ttl", "256"] = .error (.invarg "TTL must be <= 255" "256") ∧
    vpls_parse_opt (fun _ => 0) ["ttl", "abc"] = .error (.invarg "invalid TTL" "abc") ∧
    vpls_parse_opt (fun _ => 0) ["hoplimit", "inherit"] = .ok [] ∧
    vpls_parse_opt (fun _ => 0) ["hoplimit", "64"] = .ok [(Tag.TTL, [64])] ∧
    vpls_parse_opt (fun _ => 0) ["hoplimit", "256"] =
      .error (.invarg "TTL must be <= 255" "256") ∧
    vpls_parse_opt (fun _ => 0) ["hoplimit", "abc"] = .error (.invarg "invalid TTL" "abc") ∧
    ∀ (ifname : String → Nat) (v : String) (rest : List String) (st : PState),
      vpls_parse_loop ifname ("ttl" :: v :: rest) st =
        vpls_parse_loop ifname ("hoplimit" :: v :: rest) st :=
  ⟨by decide, by decide, by decide, by decide, by decide, by decide, by decide, by decide,
   by decide, by decide, fun _ _ _ _ => rfl⟩

/-- Claim C5: for every token parsing as a 32-bit value L, `input L` and
`output L` emit exactly one IN_LABEL / OUT_LABEL attribute decoding back
to L when L ≤ 1048575, and fail with "invalid input label" /
"invalid output label" (no truncation) when L > 1048575, i.e. exactly
when a bit above bit 19 is set. -/
theorem label_encoding (ifname : String → Nat) (s : String) (L : Nat)
    (h : get_u32 s = some L) :
    (L ≤ 1048575 →
      vpls_parse_opt ifname ["input", s] = .ok [(Tag.IN_LABEL, u32le L)] ∧
      vpls_parse_opt ifname ["output", s] = .ok [(Tag.OUT_LABEL, u32le L)] ∧
      getU32le (u32le L) = L) ∧
    (1048575 < L →
      vpls_parse_opt ifname ["input", s] = .error (.invarg "invalid input label" s) ∧
      vpls_parse_opt ifname ["output", s] = .error (.invarg "invalid output label" s)) := by
  have h32 : L < 4294967296 := get_u32_lt h
  constructor
  · intro hL
    have hz : L &&& labelHighMask = 0 := (land_mask_eq_zero_iff h32).mpr (by omega)
    refine ⟨?_, ?_, getU32le_u32le h32⟩
    · unfold vpls_parse_opt
      rw [loop_input_ok ifname s L h hz initState]
      simp [nhEmit, initState]
    · unfold vpls_parse_opt
      rw [loop_output_ok ifname s L h hz initState]
      simp [nhEmit, initState]
  · intro hL
    have hz : L &&& labelHighMask ≠ 0 := by
      intro hc
      have := (land_mask_eq_zero_iff h32).mp hc
      omega
    constructor
    · unfold vpls_parse_opt
      rw [loop_input_err ifname s L h hz initState]
    · unfold vpls_parse_opt
      rw [loop_output_err ifname s L h hz initState]

/-- Claim C5 witness: the theorem applied to the in-range label 100 and
to the out-of-range label 1048576 (bit 20 set). -/
theorem label_encoding_witness :
    (vpls_parse_opt (fun _ => 0) ["input", "100"] = .ok [(Tag.IN_LABEL, u32le 100)] ∧
      vpls_parse_opt (fun _ => 0) ["output", "100"] = .ok [(Tag.OUT_LABEL, u32le 100)] ∧
      getU32le (u32le 100) = 100) ∧
    (vpls_parse_opt (fun _ => 0) ["input", "1048576"] =
        .error (.invarg "invalid input label" "1048576") ∧
      vpls_parse_opt (fun _ => 0) ["output", "1048576"] =
        .error (.invarg "invalid output label" "1048576")) :=
  ⟨(label_encoding (fun _ => 0) "100" 100 (by decide)).1 (by decide),
   (label_encoding (fun _ => 0) "1048576" 1048576 (by decide)).2 (by decide)⟩

/-- Claim C6: whenever the ID tag is absent, or present with a payload
shorter than 4 bytes, the decoder renders nothing at all, whatever other
tags the mapping holds. -/
theorem decode_missing_id (ifname : Nat → Option String) (tb : Tag → Option (List Nat))
    (h : tb Tag.ID = none ∨ ∃ p, tb Tag.ID = some p ∧ p.length < 4) :
    vpls_print_opt ifname tb = "" := by
  unfold vpls_print_opt
  rcases h with h | ⟨p, hp, hlen⟩
  · rw [h]
  · rw [hp]
    simp [hlen]

/-- Claim C6 witness: the theorem applied to the empty mapping. -/
theorem decode_missing_id_witness :
    vpls_print_opt (fun _ => none) (fun _ => none) = "" :=
  decode_missing_id (fun _ => none) (fun _ => none) (Or.inl rfl)

/-- Claim C7: with a valid ID the decoded text is the fixed-order
concatenation of the field blocks; IN_LABEL, OUT_LABEL, VLAN_ID and TTL
blocks are empty whenever their value is 0, while the OIF block is
rendered whenever the tag is present — as the name when the index
resolves, else as the numeric index. -/
theorem decode_zero_fields (ifname : Nat → Option String) (tb : Tag → Option (List Nat))
    (p : List Nat) (hid : tb Tag.ID = some p) (hlen : 4 ≤ p.length) :
    vpls_print_opt ifname tb =
      "id " ++ Nat.repr (getU32le p) ++ " " ++
      inLabelPart tb ++ outLabelPart tb ++ vlanPart tb ++
      nhPart tb ++ oifPart ifname tb ++ ttlPart tb ∧
    (∀ q, tb Tag.IN_LABEL = some q → getU32le q = 0 → inLabelPart tb = "") ∧
    (∀ q, tb Tag.OUT_LABEL = some q → getU32le q = 0 → outLabelPart tb = "") ∧
    (∀ q, tb Tag.VLANID = some q → getU8 q = 0 → vlanPart tb = "") ∧
    (∀ q, tb Tag.TTL = some q → getU8 q = 0 → ttlPart tb = "") ∧
    (∀ q, tb Tag.OIF = some q →
      oifPart ifname tb = (match ifname (getU32le q) with
        | some nm => "dev " ++ nm ++ " "
        | none => "dev " ++ Nat.repr (getU32le q) ++ " ")) := by
  have hlen' : ¬ p.length < 4 := by omega
  refine ⟨?_, ?_, ?_, ?_, ?_, ?_⟩
  · unfold vpls_print_opt
    rw [hid]
    simp [hlen']
  · intro q hq h0
    unfold inLabelPart
    rw [hq]
    simp [h0]
  · intro q hq h0
    unfold outLabelPart
    rw [hq]
    simp [h0]
  · intro q hq h0
    unfold vlanPart
    rw [hq]
    simp [h0]
  · intro q hq h0
    unfold ttlPart
    rw [hq]
    simp [h0]
  · intro q hq
    unfold oifPart
    rw [hq]

/-- Claim C7 witness: the theorem applied to a mapping with ID 7, all of
IN_LABEL/OUT_LABEL/VLAN_ID/TTL zero (all omitted) and OIF 3 resolving to
"eth0", giving the full output `id 7 dev eth0 `. -/
theorem decode_zero_fields_witness :
    vpls_print_opt ifname1 tb1 =
      "id " ++ Nat.repr (getU32le (u32le 7)) ++ " " ++
      inLabelPart tb1 ++ outLabelPart tb1 ++ vlanPart tb1 ++
      nhPart tb1 ++ oifPart ifname1 tb1 ++ ttlPart tb1 ∧
    inLabelPart tb1 = "" ∧ outLabelPart tb1 = "" ∧ vlanPart tb1 = "" ∧
    ttlPart tb1 = "" ∧ oifPart ifname1 tb1 = "dev eth0 " ∧
    vpls_print_opt ifname1 tb1 = "id 7 dev eth0 " := by
  have h := decode_zero_fields ifname1 tb1 (u32le 7) rfl (by decide)
  refine ⟨h.1, ?_, ?_, ?_, ?_, ?_, by decide⟩
  · exact h.2.1 (u32le 0) rfl (by decide)
  · exact h.2.2.1 (u32le 0) rfl (by decide)
  · exact h.2.2.2.1 [0] rfl (by decide)
  · exact h.2.2.2.2.1 [0] rfl (by decide)
  · exact h.2.2.2.2.2 (u32le 3) rfl

/-- Claim C8 counterexample: in a mapping whose NH tag is present with
value 0 while NH6 is present with a non-unspecified address, the decoder
renders no next hop at all (output is just `id 1 `), contrary to the
claim that the v6 next hop is rendered in that situation. -/
theorem nh_zero_blocks_v6 :
    tbNHzero Tag.NH = some [0, 0, 0, 0] ∧ getU32le [0, 0, 0, 0] = 0 ∧
    tbNHzero Tag.NH6 = some addr16 ∧ isUnspec (read16 addr16) = false ∧
    nhPart tbNHzero = "" ∧
    vpls_print_opt (fun _ => none) tbNHzero = "id 1 " :=
  ⟨rfl, rfl, rfl, by decide, by decide, by decide⟩

/-- Claim C8 (amended): the decoder renders "via inet" when NH is present
with a non-zero value; when NH is present with value zero nothing is
rendered, even if NH6 is present and non-unspecified; only when NH is
absent is NH6 considered, rendered as "via inet6" exactly when not
unspecified.  At most one form is ever rendered. -/
theorem nh_decode_amended (tb : Tag → Option (List Nat)) :
    (∀ p, tb Tag.NH = some p → getU32le p ≠ 0 →
      nhPart tb = "via inet " ++ fmtIPv4 p ++ " ") ∧
    (∀ p, tb Tag.NH = some p → getU32le p = 0 → nhPart tb = "") ∧
    (tb Tag.NH = none → ∀ p, tb Tag.NH6 = some p → isUnspec (read16 p) = false →
      nhPart tb = "via inet6 " ++ fmtIPv6 (read16 p) ++ " ") ∧
    (tb Tag.NH = none → ∀ p, tb Tag.NH6 = some p → isUnspec (read16 p) = true →
      nhPart tb = "") ∧
    (tb Tag.NH = none → tb Tag.NH6 = none → nhPart tb = "") := by
  refine ⟨?_, ?_, ?_, ?_, ?_⟩
  · intro p hp hnz
    unfold nhPart
    rw [hp]
    simp [hnz]
  · intro p hp h0
    unfold nhPart
    rw [hp]
    simp [h0]
  · intro h4 p hp hns
    unfold nhPart
    rw [h4, hp]
    simp [hns]
  · intro h4 p hp hns
    unfold nhPart
    rw [h4, hp]
    simp [hns]
  · intro h4 h6
    unfold nhPart
    rw [h4, h6]

/-- Claim C8 witness: the amended theorem applied to the NH-zero mapping
(nothing rendered) and to the NH-absent mapping (v6 rendered). -/
theorem nh_decode_amended_witness :
    nhPart tbNHzero = "" ∧
    nhPart tbV6 = "via inet6 " ++ fmtIPv6 (read16 addr16) ++ " " :=
  ⟨(nh_decode_amended tbNHzero).2.1 [0, 0, 0, 0] rfl (by decide),
   (nh_decode_amended tbV6).2.2.1 rfl addr16 rfl (by decide)⟩

/-- Claim C9 counterexample: the outcome `vpls_parse_opt` signals to its
caller for `help` equals the outcome signalled for an unknown keyword —
both return -1 — so the caller cannot tell the two apart, contrary to
the claim of a distinguishable "help requested" outcome. -/
theorem help_unknown_same_signal :
    retcode (vpls_parse_opt (fun _ => 0) ["help"]) =
      retcode (vpls_parse_opt (fun _ => 0) ["bogus"]) ∧
    retcode (vpls_parse_opt (fun _ => 0) ["help"]) = -1 :=
  ⟨by decide, by decide⟩

set_option maxRecDepth 4096 in
/-- Claim C9 (amended): on `help` the encoder aborts parsing immediately
(even with tokens remaining), prints exactly the usage text to the error
stream, and returns -1 — the same return value as for an unknown
keyword, whose stderr additionally carries the unknown-command line; the
two outcomes differ only in stderr text, not in the signalled code. -/
theorem help_behaviour :
    vpls_parse_opt (fun _ => 0) ["help"] = .error .helpReq ∧
    stderrOf (vpls_parse_opt (fun _ => 0) ["help"]) = usageText ∧
    vpls_parse_opt (fun _ => 0) ["help", "id", "5"] = .error .helpReq ∧
    retcode (vpls_parse_opt (fun _ => 0) ["help"]) = -1 ∧
    retcode (vpls_parse_opt (fun _ => 0) ["bogus"]) = -1 ∧
    stderrOf (vpls_parse_opt (fun _ => 0) ["bogus"]) =
      "vpls: unknown command \"bogus\"?\n" ++ usageText :=
  ⟨by decide, by decide, by decide, by decide, by decide, by decide⟩

/-- Claim C10: the encoder never enforces presence of the mandatory ID
attribute: the empty token sequence encodes successfully to the empty
attribute list, and any successfully encoded sequence without an "id"
token yields an output with no ID attribute. -/
theorem no_id_enforcement (ifname : String → Nat) :
    vpls_parse_opt ifname [] = .ok [] ∧
    ∀ toks out, "id" ∉ toks → vpls_parse_opt ifname toks = .ok out →
      countTag Tag.ID out = 0 := by
  constructor
  · rfl
  · intro toks out hnid h
    revert h
    unfold vpls_parse_opt
    cases hl : vpls_parse_loop ifname toks initState with
    | error e => intro h; simp at h
    | ok st =>
      intro h
      simp only [Except.ok.injEq] at h
      subst h
      obtain ⟨l, hst, hprop⟩ := loop_appends ifname toks.length toks le_rfl initState st hl
      have hstl : st.attrs = l := by simpa [initState] using hst
      rw [countTag_append]
      have h1 : countTag Tag.ID st.attrs = 0 := by
        rw [hstl]
        exact countTag_eq_zero (fun a ha hid => hnid ((hprop a ha).2.2 hid))
      have h2 : countTag Tag.ID (nhEmit st) = 0 := by
        unfold nhEmit
        split
        · simp [countTag]
        · split
          · simp [countTag]
          · simp [countTag]
      omega

/-- Claim C10 witness: the theorem applied to the empty sequence and to
the id-free sequence `vlan 5`, whose output holds no ID attribute. -/
theorem no_id_enforcement_witness :
    vpls_parse_opt (fun _ => 0) [] = .ok [] ∧
    countTag Tag.ID [(Tag.VLANID, [5])] = 0 :=
  ⟨(no_id_enforcement (fun _ => 0)).1,
   (no_id_enforcement (fun _ => 0)).2 ["vlan", "5"] [(Tag.VLANID, [5])]
     (by decide) (by decide)⟩

end Vpls
